import Mathlib

/-!
Shallow embedding of `linkcheck/checker/urlbase.py` (class `UrlBase`), the
per-URL check engine of the LinkChecker crawler, together with proofs about
the embedded operations.  Python strings are embedded as `String` (or
`List Char` where character-level reasoning is needed), compiled regular
expressions as boolean match functions, byte strings as `List Nat`, and
raised exceptions as `Option`/sum results.
-/

namespace UrlBase

/-! ### Scope classifier: `UrlBase.set_extern` (urlbase.py lines 693-721)
(embedded below as `set_extern_scope`)

A configured link pattern entry holds a compiled regular expression
(embedded as its match function `pattern : String → Bool`, true iff
`pattern.search(url)` finds a match), a negate flag and a strict flag. -/

structure LinkPat where
  pattern : String → Bool
  negate : Bool
  strict : Bool

/-- Match test from the loop body of `set_extern`:
`(entry['negate'] and not match) or (match and not entry['negate'])`. -/
def entryMatches (e : LinkPat) (url : String) : Bool :=
  (e.negate && !(e.pattern url)) || (e.pattern url && !e.negate)

/-- The `for entry in self.aggregate.config["externlinks"]` loop of
`set_extern`: first matching entry yields `(1, entry['strict'])`. -/
def scanExternList (entries : List LinkPat) (url : String) : Option (Bool × Bool) :=
  match entries with
  | [] => none
  | e :: rest =>
    if entryMatches e url then some (true, e.strict) else scanExternList rest url

/-- The `for entry in self.aggregate.config["internlinks"]` loop of
`set_extern`: first matching entry yields `(0, 0)`. -/
def scanIntern (entries : List LinkPat) (url : String) : Option (Bool × Bool) :=
  match entries with
  | [] => none
  | e :: rest =>
    if entryMatches e url then some (false, false) else scanIntern rest url

structure ScopeConfig where
  externlinks : List LinkPat
  internlinks : List LinkPat
  check_extern_toggle : Bool

/-- Embedding of `UrlBase.set_extern` for a record whose `extern` field is
still unset (`self.extern` falsy): returns the `(is_extern, is_strict)`
pair stored into `self.extern`. -/
def set_extern_scope (cfg : ScopeConfig) (url : String) : Bool × Bool :=
  if url = "" then (true, true)
  else
    match scanExternList cfg.externlinks url with
    | some r => r
    | none =>
      match scanIntern cfg.internlinks url with
      | some r => r
      | none => if cfg.check_extern_toggle then (true, false) else (true, true)

theorem scanExtern_eq_find (entries : List LinkPat) (url : String) :
    scanExternList entries url =
      (entries.find? (fun e => entryMatches e url)).map (fun e => (true, e.strict)) := by
  induction entries with
  | nil => rfl
  | cons e rest ih =>
    by_cases h : entryMatches e url
    · simp [scanExternList, List.find?, h]
    · simp only [scanExternList, List.find?, h]
      simpa [h] using ih

theorem scanIntern_eq_find (entries : List LinkPat) (url : String) :
    scanIntern entries url =
      (entries.find? (fun e => entryMatches e url)).map (fun _ => (false, false)) := by
  induction entries with
  | nil => rfl
  | cons e rest ih =>
    by_cases h : entryMatches e url
    · simp [scanIntern, List.find?, h]
    · simp only [scanIntern, List.find?, h]
      simpa [h] using ih

theorem entryMatches_xor (e : LinkPat) (url : String) :
    entryMatches e url = xor (e.pattern url) e.negate := by
  unfold entryMatches
  cases h : e.pattern url <;> cases h2 : e.negate <;> simp [h, h2]

/-- Claim C1: for every non-empty URL, `set_extern` scans the extern list in
order (an entry matching iff pattern-found XOR negate), the first extern
match yielding `(true, strict)`; otherwise the intern list the same way,
first match yielding `(false, false)`; otherwise `(true, false)` when
`check_extern_toggle` is on and `(true, true)` when off; the empty URL yields
`(true, true)`; and extern precedence holds for the `[A,B]` / `[C]`
scenario. -/
theorem c1_set_extern_classification :
    (∀ (e : LinkPat) (url : String), entryMatches e url = xor (e.pattern url) e.negate) ∧
    (∀ cfg : ScopeConfig, set_extern_scope cfg "" = (true, true)) ∧
    (∀ (cfg : ScopeConfig) (url : String), url ≠ "" →
      set_extern_scope cfg url =
        match cfg.externlinks.find? (fun e => entryMatches e url) with
        | some e => (true, e.strict)
        | none =>
          match cfg.internlinks.find? (fun e => entryMatches e url) with
          | some _ => (false, false)
          | none => if cfg.check_extern_toggle then (true, false) else (true, true)) ∧
    (∀ (A B C : LinkPat) (ce : Bool) (url : String), url ≠ "" →
      entryMatches A url = false → entryMatches B url = true →
      entryMatches C url = true →
      set_extern_scope ⟨[A, B], [C], ce⟩ url = (true, B.strict)) := by
  refine ⟨entryMatches_xor, fun cfg => by simp [set_extern_scope], ?_, ?_⟩
  · intro cfg url hurl
    rw [set_extern_scope, if_neg hurl, scanExtern_eq_find, scanIntern_eq_find]
    cases cfg.externlinks.find? (fun e => entryMatches e url) with
    | some e => rfl
    | none =>
      cases cfg.internlinks.find? (fun e => entryMatches e url) with
      | some e => rfl
      | none => rfl
  · intro A B C ce url hurl hA hB _
    rw [set_extern_scope, if_neg hurl]
    simp [scanExternList, hA, hB]

theorem c1_set_extern_classification_witness :
    let A : LinkPat := ⟨fun _ => false, false, false⟩
    let B : LinkPat := ⟨fun _ => true, false, true⟩
    let C : LinkPat := ⟨fun _ => true, false, false⟩
    ("http://x.test/" ≠ "") ∧
    set_extern_scope ⟨[A, B], [C], false⟩ "http://x.test/" = (true, B.strict) := by
  refine ⟨by decide, ?_⟩
  exact c1_set_extern_classification.2.2.2 _ _ _ false "http://x.test/"
    (by decide) rfl rfl rfl

/-! ### Bounded chunked download: `UrlBase.read_content` (lines 770-779)
and `UrlBase.download_content` (lines 732-742)

The open connection delivers a sequence of byte chunks (`List Nat`); an
empty chunk, or exhaustion of the sequence, ends the stream (`while data:`).
A raised `LinkCheckerError("File size too large")` is embedded as `none`. -/

/-- Embedding of `UrlBase.read_content`, generalized over the bytes already
written to `buf`: before each chunk is written, if `buf.tell() + len(data)`
would exceed `maxfilesizedownload` the size-limit fault is raised (`none`)
and the partial buffer is discarded. -/
def read_content (maxsize : Nat) (buf : List Nat) (chunks : List (List Nat)) :
    Option (List Nat) :=
  match chunks with
  | [] => some buf
  | data :: rest =>
    if data = [] then some buf
    else if buf.length + data.length > maxsize then none
    else read_content maxsize (buf ++ data) rest

/-- Embedding of `UrlBase.download_content` (without timing): returns the
content together with the recorded `self.size = len(content)`. -/
def download_content (maxsize : Nat) (chunks : List (List Nat)) :
    Option (List Nat × Nat) :=
  (read_content maxsize [] chunks).map (fun c => (c, c.length))

theorem read_content_length_le (maxsize : Nat) (chunks : List (List Nat)) :
    ∀ (buf : List Nat), buf.length ≤ maxsize →
      ∀ content, read_content maxsize buf chunks = some content →
        content.length ≤ maxsize := by
  induction chunks with
  | nil =>
    intro buf hbuf content h
    simp only [read_content, Option.some.injEq] at h
    subst h
    exact hbuf
  | cons data rest ih =>
    intro buf hbuf content h
    by_cases hd : data = []
    · rw [read_content, if_pos hd] at h
      cases h
      exact hbuf
    · rw [read_content, if_neg hd] at h
      by_cases hsz : buf.length + data.length > maxsize
      · rw [if_pos hsz] at h
        cases h
      · rw [if_neg hsz] at h
        exact ih (buf ++ data) (by simp; omega) content h

/-- Claim C2: `read_content` raises the size-limit fault as soon as the
buffered size plus the next chunk would exceed `maxfilesizedownload`,
regardless of the remaining chunks (so the full body is never buffered);
and a normal return has length at most `maxfilesizedownload`, hence
`download_content` records a size of at most `maxfilesizedownload`. -/
theorem c2_read_content_size_limit (maxsize : Nat) :
    (∀ (buf data : List Nat) (rest : List (List Nat)), data ≠ [] →
      buf.length + data.length > maxsize →
      read_content maxsize buf (data :: rest) = none) ∧
    (∀ (chunks : List (List Nat)) (content : List Nat),
      read_content maxsize [] chunks = some content →
      content.length ≤ maxsize) ∧
    (∀ (chunks : List (List Nat)) (content : List Nat) (size : Nat),
      download_content maxsize chunks = some (content, size) →
      size ≤ maxsize) := by
  refine ⟨?_, ?_, ?_⟩
  · intro buf data rest hd hsz
    rw [read_content, if_neg hd, if_pos hsz]
  · intro chunks content h
    exact read_content_length_le maxsize chunks [] (Nat.zero_le _) content h
  · intro chunks content size h
    unfold download_content at h
    cases hr : read_content maxsize [] chunks with
    | none => rw [hr] at h; cases h
    | some c =>
      rw [hr] at h
      simp only [Option.map_some', Option.some.injEq, Prod.mk.injEq] at h
      obtain ⟨hc, hs⟩ := h
      subst hc hs
      exact read_content_length_le maxsize chunks [] (Nat.zero_le _) c hr

theorem c2_read_content_size_limit_witness :
    (([1, 2] : List Nat) ≠ [] ∧ ([] : List Nat).length + [1, 2].length > 1 ∧
      read_content 1 [] [[1, 2], [3]] = none) ∧
    (read_content 5 [] [[1, 2, 3]] = some [1, 2, 3] ∧ ([1, 2, 3] : List Nat).length ≤ 5) ∧
    (download_content 5 [[1, 2, 3]] = some ([1, 2, 3], 3) ∧ 3 ≤ 5) := by
  refine ⟨⟨by decide, by decide, ?_⟩, ⟨by decide, ?_⟩, ⟨by decide, ?_⟩⟩
  · exact (c2_read_content_size_limit 1).1 [] [1, 2] [[3]] (by decide) (by decide)
  · exact (c2_read_content_size_limit 5).2.1 [[1, 2, 3]] [1, 2, 3] (by decide)
  · exact (c2_read_content_size_limit 5).2.2 [[1, 2, 3]] [1, 2, 3] 3 (by decide)

/-! ### Result recording: `UrlBase.set_result` (lines 280-309)

An `ignoreerrors` rule is a pair of compiled regular expressions
`(url_regex, msg_regex)`, each embedded as its `search` match function. -/

structure IgnoreRule where
  url_regex : String → Bool
  msg_regex : String → Bool

/-- The `for url_regex, msg_regex in self.ignore_errors` loop of
`set_result` (lines 300-306), acting on the current `(result, valid)`
state.  Note the loop has no `break`: it continues past a matching rule,
re-testing `msg_regex` against the updated result. -/
def applyIgnoreErrors (rules : List IgnoreRule) (url : String)
    (result : String) (valid : Bool) : String × Bool :=
  match rules with
  | [] => (result, valid)
  | r :: rest =>
    if !(r.url_regex url) then applyIgnoreErrors rest url result valid
    else if !(r.msg_regex result) then applyIgnoreErrors rest url result valid
    else applyIgnoreErrors rest url ("Ignored: " ++ result) true

/-- Mutable record state touched by `set_result`. -/
structure ResState where
  url : String
  ignore_errors : List IgnoreRule
  result : String
  has_result : Bool
  valid : Bool
  data : Option (List Nat)

/-- Embedding of `UrlBase.set_result`.  The returned Bool is true iff the
"Double result" conflict was logged (`self.has_result and not overwrite`). -/
def set_result (st : ResState) (msg : String) (valid : Bool)
    (overwrite : Bool) : ResState × Bool :=
  let conflict := st.has_result && !overwrite
  let has_result1 := if conflict then st.has_result else true
  let rv :=
    if !valid then applyIgnoreErrors st.ignore_errors st.url msg valid
    else (msg, valid)
  ({ st with result := rv.1, valid := rv.2, has_result := has_result1,
             data := none }, conflict)

/-- Claim C3: a second `set_result` call with `overwrite=false` flags a
conflict but still stores the new message and validity (a fresh call does
not flag one); `overwrite=true` never flags a conflict; `has_result` is
true after every call; and the stored result is independent of the
previously stored result (the second message survives, not the first). -/
theorem c3_set_result_double :
    (∀ (st : ResState) (msg : String) (v : Bool),
      (set_result st msg v false).2 = st.has_result) ∧
    (∀ (st : ResState) (msg : String) (v : Bool),
      (set_result st msg v true).2 = false) ∧
    (∀ (st : ResState) (msg : String) (v ow : Bool),
      (set_result st msg v ow).1.has_result = true) ∧
    (∀ (st : ResState) (msg : String) (ow : Bool),
      (set_result st msg true ow).1.result = msg ∧
      (set_result st msg true ow).1.valid = true) ∧
    (∀ (st : ResState) (r' msg : String) (v ow : Bool),
      (set_result { st with result := r' } msg v ow).1.result =
        (set_result st msg v ow).1.result ∧
      (set_result { st with result := r' } msg v ow).1.valid =
        (set_result st msg v ow).1.valid) := by
  refine ⟨?_, ?_, ?_, ?_, ?_⟩
  · intro st msg v
    simp [set_result]
  · intro st msg v
    simp [set_result]
  · intro st msg v ow
    cases hh : st.has_result <;> simp [set_result, hh]
  · intro st msg ow
    simp [set_result]
  · intro st r' msg v ow
    simp [set_result]

/-- Counterexample for claim C4: with two ignore rules that both match any
URL and any message, a `set_result` storing validity `false` prefixes
"Ignored: " twice — the rule after the first matching rule affects the
message again, so the prefix is not applied exactly once. -/
theorem c4_second_rule_applies_again :
    let rule : IgnoreRule := ⟨fun _ => true, fun _ => true⟩
    let st : ResState :=
      ⟨"http://example.com/", [rule, rule], "", false, true, none⟩
    (set_result st "error" false false).1.result = "Ignored: Ignored: error" ∧
    (set_result st "error" false false).1.result ≠ "Ignored: error" := by
  exact ⟨rfl, by decide⟩

/-- Iterated "Ignored: " prefixing. -/
def prefixIgnoredN : Nat → String → String
  | 0, s => s
  | n + 1, s => "Ignored: " ++ prefixIgnoredN n s

/-- Number of rules that fire during the (break-less) scan of the
`ignore_errors` list, each firing rule being tested against the
already-updated message. -/
def matchCount (rules : List IgnoreRule) (url : String) (result : String) : Nat :=
  match rules with
  | [] => 0
  | r :: rest =>
    if r.url_regex url && r.msg_regex result then
      1 + matchCount rest url ("Ignored: " ++ result)
    else matchCount rest url result

theorem prefixIgnoredN_add (m n : Nat) (s : String) :
    prefixIgnoredN (m + n) s = prefixIgnoredN m (prefixIgnoredN n s) := by
  induction m with
  | zero => simp [prefixIgnoredN]
  | succ k ih =>
    have : k + 1 + n = (k + n) + 1 := by omega
    rw [this, prefixIgnoredN, prefixIgnoredN, ih]

theorem applyIgnoreErrors_eq (rules : List IgnoreRule) (url : String) :
    ∀ (result : String) (valid : Bool),
      applyIgnoreErrors rules url result valid =
        (prefixIgnoredN (matchCount rules url result) result,
         valid || (matchCount rules url result != 0)) := by
  induction rules with
  | nil => intro result valid; simp [applyIgnoreErrors, matchCount, prefixIgnoredN]
  | cons r rest ih =>
    intro result valid
    by_cases hu : r.url_regex url
    · by_cases hm : r.msg_regex result
      · rw [applyIgnoreErrors, if_neg (by simp [hu]), if_neg (by simp [hm]), ih]
        rw [matchCount, if_pos (by simp [hu, hm])]
        rw [Nat.add_comm 1, prefixIgnoredN_add]
        simp [prefixIgnoredN]
      · rw [applyIgnoreErrors, if_neg (by simp [hu]), if_pos (by simp [hm]), ih]
        rw [matchCount, if_neg (by simp [hm])]
    · rw [applyIgnoreErrors, if_pos (by simp [hu]), ih]
      rw [matchCount, if_neg (by simp [hu])]

/-- Amended claim C4: whenever `set_result` stores validity false, the
ignore-rule list is scanned in order with no break: every rule whose
url-pattern matches the URL and whose message-pattern matches the current
(possibly already prefixed) result fires, each firing rule flipping
validity to true and prepending "Ignored: " once more; so the final
message carries one "Ignored: " prefix per firing rule (exactly one only
when exactly one rule fires), and validity ends true iff at least one
rule fired. -/
theorem c4_ignore_rules_scan (st : ResState) (msg : String) (ow : Bool) :
    (set_result st msg false ow).1.result =
      prefixIgnoredN (matchCount st.ignore_errors st.url msg) msg ∧
    (set_result st msg false ow).1.valid =
      (matchCount st.ignore_errors st.url msg != 0) ∧
    (matchCount st.ignore_errors st.url msg = 1 →
      (set_result st msg false ow).1.result = "Ignored: " ++ msg) := by
  refine ⟨?_, ?_, ?_⟩
  · simp [set_result, applyIgnoreErrors_eq]
  · simp [set_result, applyIgnoreErrors_eq]
  · intro h1
    simp [set_result, applyIgnoreErrors_eq, h1, prefixIgnoredN]

theorem c4_ignore_rules_scan_witness :
    let rule1 : IgnoreRule := ⟨fun _ => true, fun _ => true⟩
    let rule2 : IgnoreRule := ⟨fun _ => false, fun _ => true⟩
    let st : ResState :=
      ⟨"http://example.com/", [rule1, rule2], "", false, true, none⟩
    matchCount st.ignore_errors st.url "error" = 1 ∧
    (set_result st "error" false false).1.result = "Ignored: " ++ "error" := by
  refine ⟨rfl, ?_⟩
  exact (c4_ignore_rules_scan _ "error" false).2.2 rfl

/-! ### Recursion gate: `UrlBase.allows_recursion` (lines 664-687),
`UrlBase.allows_simple_recursion` (lines 653-662),
`UrlBase.can_get_content` (lines 728-730),
`UrlBase.is_content_type_parseable` / `ContentMimetypes` (lines 88-109) -/

/-- Keys of `UrlBase.ContentMimetypes`, the fixed catalog of parseable
content types. -/
def ContentMimetypes : List String :=
  ["text/html", "application/xhtml+xml", "application/x-httpd-php",
   "text/css", "application/vnd.adobe.flash.movie",
   "application/x-shockwave-flash", "application/msword",
   "text/plain+linkchecker", "text/plain+opera", "text/plain+chromium",
   "application/x-plist+safari", "text/vnd.wap.wml",
   "application/xml+sitemap", "application/xml+sitemapindex",
   "application/pdf", "application/x-pdf"]

structure RecConfig where
  recursionlevel : Int
  maxfilesizedownload : Int
  maxfilesizeparse : Int

/-- Record fields read by the recursion gate.  `robots_allowed` is the
answer of the robots-policy collaborator: `UrlBase.content_allows_robots`
returns True (the default for non-HTTP schemes); the HTTP override lives
outside this file's source. -/
structure RecState where
  valid : Bool
  size : Int
  recursion_level : Int
  is_extern_flag : Bool
  content_type : String
  robots_allowed : Bool

/-- Embedding of `UrlBase.can_get_content`. -/
def can_get_content (cfg : RecConfig) (st : RecState) : Bool :=
  st.size ≤ cfg.maxfilesizedownload

/-- Embedding of `UrlBase.allows_simple_recursion`. -/
def allows_simple_recursion (cfg : RecConfig) (st : RecState) : Bool :=
  if cfg.recursionlevel ≥ 0 ∧ st.recursion_level ≥ cfg.recursionlevel then false
  else if st.is_extern_flag then false
  else true

/-- Modelled from the spec: `UrlBase.is_parseable` returns False in the base
class and is overridden by the per-scheme subclasses (not in src/); per the
spec the content type must be "in the recognized parseable set (HTML, CSS, a
small fixed MIME catalog)", i.e. a key of `ContentMimetypes`. -/
def is_parseable (st : RecState) : Bool :=
  ContentMimetypes.contains st.content_type

/-- Embedding of `UrlBase.content_allows_robots` (True by default; the HTTP
subclass override is outside src/ and is represented by the
`robots_allowed` field). -/
def content_allows_robots (st : RecState) : Bool :=
  st.robots_allowed

/-- Embedding of `UrlBase.allows_recursion`: the ordered short-circuit
predicate chain. -/
def allows_recursion (cfg : RecConfig) (st : RecState) : Bool :=
  if !st.valid then false
  else if !(can_get_content cfg st) then false
  else if !(allows_simple_recursion cfg st) then false
  else if st.size > cfg.maxfilesizeparse then false
  else if !(is_parseable st) then false
  else if !(content_allows_robots st) then false
  else true

theorem allows_simple_recursion_iff (cfg : RecConfig) (st : RecState) :
    allows_simple_recursion cfg st = true ↔
      ((cfg.recursionlevel < 0 ∨ st.recursion_level < cfg.recursionlevel) ∧
        st.is_extern_flag = false) := by
  unfold allows_simple_recursion
  by_cases h1 : cfg.recursionlevel ≥ 0 ∧ st.recursion_level ≥ cfg.recursionlevel
  · rw [if_pos h1]
    simp only [Bool.false_eq_true, false_iff]
    rintro ⟨hcap, -⟩
    omega
  · rw [if_neg h1]
    cases hex : st.is_extern_flag <;> simp [hex]
    omega

theorem allows_recursion_eq (cfg : RecConfig) (st : RecState) :
    allows_recursion cfg st =
      (st.valid && decide (st.size ≤ cfg.maxfilesizedownload) &&
       allows_simple_recursion cfg st &&
       decide (st.size ≤ cfg.maxfilesizeparse) &&
       is_parseable st && content_allows_robots st) := by
  unfold allows_recursion can_get_content
  split_ifs with h1 h2 h3 h4 h5 h6 <;> simp_all

/-- Claim C5: `allows_recursion` is true iff the record is valid, content
can be fetched (size within `maxfilesizedownload`), the recursion-level cap
is not reached (negative cap meaning unbounded) and the record is not
extern, the known size is at most `maxfilesizeparse`, the content type is
in the parseable catalog, and the robots policy permits; in particular with
`maxfilesizeparse = 1000`, size 1001 and content type text/html the gate
returns false. -/
theorem c5_allows_recursion (cfg : RecConfig) (st : RecState) :
    (allows_recursion cfg st = true ↔
      (st.valid = true ∧ st.size ≤ cfg.maxfilesizedownload ∧
       (cfg.recursionlevel < 0 ∨ st.recursion_level < cfg.recursionlevel) ∧
       st.is_extern_flag = false ∧ st.size ≤ cfg.maxfilesizeparse ∧
       is_parseable st = true ∧ st.robots_allowed = true)) ∧
    (cfg.maxfilesizeparse = 1000 → st.size = 1001 →
     st.content_type = "text/html" → allows_recursion cfg st = false) := by
  constructor
  · rw [allows_recursion_eq]
    simp only [Bool.and_eq_true, decide_eq_true_eq, content_allows_robots,
      allows_simple_recursion_iff]
    constructor
    · rintro ⟨⟨⟨⟨⟨hv, hdl⟩, hcap, hex⟩, hp⟩, hpar⟩, hrob⟩
      exact ⟨hv, hdl, hcap, hex, hp, hpar, hrob⟩
    · rintro ⟨hv, hdl, hcap, hex, hp, hpar, hrob⟩
      exact ⟨⟨⟨⟨⟨hv, hdl⟩, hcap, hex⟩, hp⟩, hpar⟩, hrob⟩
  · intro hmp hsz _
    rw [allows_recursion_eq]
    have hd : decide (st.size ≤ cfg.maxfilesizeparse) = false := by
      rw [decide_eq_false_iff_not]
      omega
    simp [hd]

theorem c5_allows_recursion_witness :
    let cfg : RecConfig := ⟨-1, 5000000, 1000⟩
    let st : RecState := ⟨true, 1001, 1, false, "text/html", true⟩
    (cfg.maxfilesizeparse = 1000 ∧ st.size = 1001 ∧
     st.content_type = "text/html" ∧ allows_recursion cfg st = false) ∧
    (allows_recursion cfg st = true ↔
      (st.valid = true ∧ st.size ≤ cfg.maxfilesizedownload ∧
       (cfg.recursionlevel < 0 ∨ st.recursion_level < cfg.recursionlevel) ∧
       st.is_extern_flag = false ∧ st.size ≤ cfg.maxfilesizeparse ∧
       is_parseable st = true ∧ st.robots_allowed = true)) := by
  refine ⟨⟨rfl, rfl, rfl, ?_⟩, ?_⟩
  · exact (c5_allows_recursion ⟨-1, 5000000, 1000⟩
      ⟨true, 1001, 1, false, "text/html", true⟩).2 rfl rfl rfl
  · exact (c5_allows_recursion ⟨-1, 5000000, 1000⟩
      ⟨true, 1001, 1, false, "text/html", true⟩).1

/-! ### Cache key: `UrlBase.set_cache_url` (lines 400-408)

The record's `urlparts` is the five-element split of the URL. -/

structure UrlParts where
  scheme : String
  netloc : String
  path : String
  query : String
  fragment : String

/-- Modelled from the spec: `urlutil.urlunsplit` (linkcheck/url.py, not
under src/), the standard five-part URL recomposition used both to derive
`self.url` and to rebuild the fragment-stripped cache URL.  This is the
part before the fragment is appended. -/
def urlunsplitBase (p : UrlParts) : String :=
  let url := p.path
  let url :=
    if p.netloc ≠ "" ∨ (url ≠ "" ∧ url.take 2 = "//") then
      "//" ++ p.netloc ++ (if url ≠ "" ∧ url.take 1 ≠ "/" then "/" ++ url else url)
    else url
  let url := if p.scheme ≠ "" then p.scheme ++ ":" ++ url else url
  if p.query ≠ "" then url ++ "?" ++ p.query else url

/-- Modelled from the spec: `urlutil.urlunsplit` (linkcheck/url.py, not
under src/): the recomposed URL, with `#fragment` appended when the
fragment is non-empty. -/
def urlunsplit (p : UrlParts) : String :=
  if p.fragment ≠ "" then urlunsplitBase p ++ "#" ++ p.fragment else urlunsplitBase p

/-- Embedding of `UrlBase.set_cache_url`: `self.cache_url` is the full URL
when the AnchorCheck plugin is enabled, else
`urlutil.urlunsplit(self.urlparts[:4] + [''])`. -/
def set_cache_url (enabledplugins : List String) (url : String)
    (p : UrlParts) : String :=
  if "AnchorCheck" ∈ enabledplugins then url
  else urlunsplit { p with fragment := "" }

theorem urlunsplit_erase_fragment (p : UrlParts) :
    urlunsplit { p with fragment := "" } = urlunsplitBase p := by
  have hne : ¬(({ p with fragment := "" } : UrlParts).fragment ≠ "") :=
    fun h => h rfl
  rw [urlunsplit, if_neg hne]
  rfl

/-- Claim C6: for a record whose URL was successfully built (so
`self.url = urlunsplit self.urlparts`), the cache URL equals the full
normalized URL including the fragment when the AnchorCheck plugin is
enabled; otherwise it is the URL with the fragment removed: it equals
the recomposition of the fragment-stripped parts, the full URL is the
cache URL followed by `#fragment` when a fragment is present, and the
cache URL equals the full URL when there is none. -/
theorem c6_set_cache_url (plugins : List String) (p : UrlParts) :
    ("AnchorCheck" ∈ plugins →
      set_cache_url plugins (urlunsplit p) p = urlunsplit p) ∧
    ("AnchorCheck" ∉ plugins →
      set_cache_url plugins (urlunsplit p) p = urlunsplit { p with fragment := "" } ∧
      (p.fragment ≠ "" →
        urlunsplit p = set_cache_url plugins (urlunsplit p) p ++ "#" ++ p.fragment) ∧
      (p.fragment = "" →
        set_cache_url plugins (urlunsplit p) p = urlunsplit p)) := by
  constructor
  · intro h
    rw [set_cache_url, if_pos h]
  · intro h
    rw [set_cache_url, if_neg h]
    refine ⟨rfl, ?_, ?_⟩
    · intro hf
      rw [urlunsplit_erase_fragment, urlunsplit, if_pos hf]
    · intro hf
      rw [urlunsplit_erase_fragment, urlunsplit, hf]
      rw [if_neg (fun h => h rfl)]

theorem c6_set_cache_url_witness :
    let p : UrlParts := ⟨"http", "example.com", "/a", "", "frag"⟩
    ("AnchorCheck" ∈ (["AnchorCheck"] : List String) ∧
      set_cache_url ["AnchorCheck"] (urlunsplit p) p = urlunsplit p) ∧
    ("AnchorCheck" ∉ ([] : List String) ∧
      set_cache_url [] (urlunsplit p) p = urlunsplit { p with fragment := "" }) := by
  refine ⟨⟨by decide, ?_⟩, ⟨by decide, ?_⟩⟩
  · exact (c6_set_cache_url ["AnchorCheck"]
      ⟨"http", "example.com", "/a", "", "frag"⟩).1 (by decide)
  · exact ((c6_set_cache_url []
      ⟨"http", "example.com", "/a", "", "frag"⟩).2 (by decide)).1

/-! ### Fault translator: `UrlBase.handle_exception` (lines 609-630)

A caught fault is embedded with the exact class name of `etype`, the Python
truthiness of `evalue` (`not evalue` — a fault "carrying no detail" is a
falsy value), its string form, and `evalue.args[0]` when present.  In
Python 3 `socket.error` is the class `OSError`. -/

structure CaughtFault where
  kind : String
  truthy : Bool
  detail : String
  args0 : Option Int

def EBADF : Int := 9

/-- Modelled from the spec: `strformat.limit` (linkcheck/strformat.py, not
under src/) truncates the message to the given number of characters. -/
def limit (s : String) (n : Nat) : String := String.mk (s.data.take n)

/-- Embedding of `UrlBase.handle_exception`: returns the formatted error
message and the new value of `self.caching`. -/
def handle_exception (noCacheKinds : List String) (f : CaughtFault)
    (caching : Bool) : String × Bool :=
  let caching1 :=
    if f.kind ∈ noCacheKinds ∨ (f.kind = "OSError" ∧ f.args0 = some EBADF) ∨
        f.truthy = false then false
    else caching
  let errmsg := if f.truthy then f.kind ++ ": " ++ f.detail else f.kind
  (limit errmsg 240, caching1)

/-- Claim C8: `handle_exception` returns `"<kind>: <detail>"` (the kind
name alone when the fault carries no detail) truncated to 240 characters,
and clears the cache-eligibility flag exactly when the kind is in the
configured no-cache set, or the fault is a socket error (`OSError`) with
`args[0] == EBADF`, or the fault carries no detail; otherwise the flag is
left unchanged. -/
theorem c8_handle_exception (ncl : List String) (f : CaughtFault)
    (caching : Bool) :
    (handle_exception ncl f caching).1 =
      limit (if f.truthy then f.kind ++ ": " ++ f.detail else f.kind) 240 ∧
    (handle_exception ncl f caching).1.length ≤ 240 ∧
    ((f.kind ∈ ncl ∨ (f.kind = "OSError" ∧ f.args0 = some EBADF) ∨
        f.truthy = false) →
      (handle_exception ncl f caching).2 = false) ∧
    (¬(f.kind ∈ ncl ∨ (f.kind = "OSError" ∧ f.args0 = some EBADF) ∨
        f.truthy = false) →
      (handle_exception ncl f caching).2 = caching) := by
  refine ⟨rfl, ?_, ?_, ?_⟩
  · show (String.mk _).length ≤ 240
    exact List.length_take_le 240 _
  · intro h
    show (if _ then false else caching) = false
    rw [if_pos h]
  · intro h
    show (if _ then false else caching) = caching
    rw [if_neg h]

theorem c8_handle_exception_witness :
    let f : CaughtFault := ⟨"ConnectionRefusedError", true, "refused", some 111⟩
    (f.kind ∈ ["ConnectionRefusedError"] ∨
      (f.kind = "OSError" ∧ f.args0 = some EBADF) ∨ f.truthy = false) ∧
    (handle_exception ["ConnectionRefusedError"] f true).2 = false ∧
    ¬(f.kind ∈ ([] : List String) ∨
      (f.kind = "OSError" ∧ f.args0 = some EBADF) ∨ f.truthy = false) ∧
    (handle_exception [] f true).2 = true ∧
    (handle_exception [] f true).1 =
      limit (if f.truthy then f.kind ++ ": " ++ f.detail else f.kind) 240 := by
  refine ⟨by decide, ?_, by decide, ?_, ?_⟩
  · exact (c8_handle_exception ["ConnectionRefusedError"]
      ⟨"ConnectionRefusedError", true, "refused", some 111⟩ true).2.2.1 (by decide)
  · exact (c8_handle_exception []
      ⟨"ConnectionRefusedError", true, "refused", some 111⟩ true).2.2.2 (by decide)
  · exact (c8_handle_exception []
      ⟨"ConnectionRefusedError", true, "refused", some 111⟩ true).1

/-! ### Interrupted-system-call handling: `UrlBase.check` (lines 536-549)

The `except OSError` handler runs
`if etype == errno.EINTR: raise KeyboardInterrupt(value) else: raise`,
where `etype` is the exception *class* from `sys.exc_info()` and
`errno.EINTR` is the integer 4.  Python `==` between a class object and an
integer is always false. -/

inductive PyVal where
  | int : Int → PyVal
  | excType : String → PyVal

/-- Python equality between the values compared in the handler: an integer
equals an equal integer, a class equals the same class, and a class never
equals an integer. -/
def pyEq : PyVal → PyVal → Bool
  | .int a, .int b => a == b
  | .excType a, .excType b => a == b
  | _, _ => false

def errno_EINTR : Int := 4

structure OSErrorValue where
  errnoVal : Int
  strerror : String

inductive CheckOutcome where
  | keyboardInterrupt (value : OSErrorValue)
  | osError (value : OSErrorValue)

/-- Embedding of the `except OSError` clause of `UrlBase.check`: the raised
outcome for the caught `(etype, value)`. -/
def check_oserror_handler (etype : PyVal) (value : OSErrorValue) : CheckOutcome :=
  if pyEq etype (.int errno_EINTR) then .keyboardInterrupt value
  else .osError value

/-- Claim C9 is violated by the code: `etype` is always an exception class,
never equal (under Python `==`) to the integer `errno.EINTR`, so every
caught OSError — including one whose errno is EINTR (4, "Interrupted
system call") — is re-raised as an OSError and never converted into
KeyboardInterrupt. -/
theorem c9_eintr_not_converted :
    (∀ (name : String) (value : OSErrorValue),
      check_oserror_handler (PyVal.excType name) value =
        CheckOutcome.osError value) ∧
    check_oserror_handler (PyVal.excType "OSError")
        ⟨errno_EINTR, "Interrupted system call"⟩ =
      CheckOutcome.osError ⟨errno_EINTR, "Interrupted system call"⟩ := by
  exact ⟨fun name value => rfl, rfl⟩

/-! ### Warning/info recording: `UrlBase.add_warning` (lines 382-391) and
`UrlBase.add_info` (lines 393-398) -/

structure DiagState where
  warnings : List (Option String × String)
  info : List String

/-- Embedding of `UrlBase.add_info`. -/
def add_info (st : DiagState) (s : String) : DiagState :=
  if s ∈ st.info then st else { st with info := st.info ++ [s] }

/-- Membership test `tag in self.aggregate.config["ignorewarnings"]`, where
the ignore set holds tag strings and the default tag is None. -/
def tagIgnored (ignorewarnings : List String) (tag : Option String) : Bool :=
  match tag with
  | some t => ignorewarnings.contains t
  | none => false

/-- Embedding of `UrlBase.add_warning`. -/
def add_warning (ignorewarnings : List String) (st : DiagState) (s : String)
    (tag : Option String) : DiagState :=
  if (tag, s) ∈ st.warnings then st
  else if tagIgnored ignorewarnings tag then add_info st s
  else { st with warnings := st.warnings ++ [(tag, s)] }

/-- Claim C10: `add_info` appends only messages not already present (info
is deduplicated by exact message string); an `add_warning` whose tag is in
the configured ignore set is downgraded to `add_info` with the tag
discarded; and two warnings with different ignored tags but the same
message collapse into a single info entry while the warning list is left
untouched. -/
theorem c10_ignored_warnings_collapse (ig : List String) (st : DiagState)
    (s m : String) (t1 t2 : String) :
    (s ∈ st.info → add_info st s = st) ∧
    (s ∉ st.info → (add_info st s).info = st.info ++ [s] ∧
      (add_info st s).warnings = st.warnings) ∧
    (∀ tag : Option String, tagIgnored ig tag = true → (tag, s) ∉ st.warnings →
      add_warning ig st s tag = add_info st s) ∧
    (tagIgnored ig (some t1) = true → tagIgnored ig (some t2) = true →
      (some t1, m) ∉ st.warnings → (some t2, m) ∉ st.warnings → m ∉ st.info →
      (add_warning ig (add_warning ig st m (some t1)) m (some t2)).warnings =
        st.warnings ∧
      (add_warning ig (add_warning ig st m (some t1)) m (some t2)).info =
        st.info ++ [m]) := by
  refine ⟨?_, ?_, ?_, ?_⟩
  · intro h
    rw [add_info, if_pos h]
  · intro h
    rw [add_info, if_neg h]
    exact ⟨rfl, rfl⟩
  · intro tag htag hmem
    rw [add_warning, if_neg hmem, if_pos htag]
  · intro h1 h2 hw1 hw2 hi
    have hst1 : add_warning ig st m (some t1) =
        { st with info := st.info ++ [m] } := by
      rw [add_warning, if_neg hw1, if_pos h1, add_info, if_neg hi]
    rw [hst1]
    have hw2' : (some t2, m) ∉
        ({ st with info := st.info ++ [m] } : DiagState).warnings := hw2
    rw [add_warning, if_neg hw2', if_pos h2, add_info,
      if_pos (by simp : m ∈ st.info ++ [m])]
    exact ⟨rfl, rfl⟩

theorem c10_ignored_warnings_collapse_witness :
    let ig : List String := ["tag1", "tag2"]
    let st : DiagState := ⟨[], []⟩
    tagIgnored ig (some "tag1") = true ∧ tagIgnored ig (some "tag2") = true ∧
    (add_warning ig (add_warning ig st "same msg" (some "tag1")) "same msg"
        (some "tag2")).warnings = [] ∧
    (add_warning ig (add_warning ig st "same msg" (some "tag1")) "same msg"
        (some "tag2")).info = [] ++ ["same msg"] := by
  refine ⟨rfl, rfl, ?_⟩
  have h := (c10_ignored_warnings_collapse ["tag1", "tag2"] ⟨[], []⟩
    "x" "same msg" "tag1" "tag2").2.2.2 rfl rfl (by simp) (by simp) (by simp)
  exact ⟨h.1, h.2⟩

/-! ### URL builder/normalizer: `UrlBase.build_url` (lines 447-479),
`UrlBase.build_url_parts` (lines 481-520), `UrlBase.check_url_warnings`
(lines 431-445)

Python strings are embedded character by character as `List Char` here,
since the builder does character-level surgery on the URL. -/

abbrev CL := List Char

/-- Split at the first occurrence of `sep` (the separator removed), like
Python `str.split(sep, 1)` / `str.find`. -/
def splitOnFirst (sep : Char) : CL → Option (CL × CL)
  | [] => none
  | c :: rest =>
    if c = sep then some ([], rest)
    else (splitOnFirst sep rest).map (fun p => (c :: p.1, p.2))

theorem splitOnFirst_of_not_mem (sep : Char) (l : CL) (h : sep ∉ l) :
    splitOnFirst sep l = none := by
  induction l with
  | nil => rfl
  | cons c rest ih =>
    rw [splitOnFirst,
      if_neg (fun hc => h (by rw [← hc]; exact List.mem_cons_self c rest)),
      ih (fun hm => h (List.mem_cons_of_mem c hm))]
    rfl

theorem splitOnFirst_append (sep : Char) (a b : CL) (h : sep ∉ a) :
    splitOnFirst sep (a ++ sep :: b) = some (a, b) := by
  induction a with
  | nil => simp [splitOnFirst]
  | cons c rest ih =>
    rw [List.cons_append, splitOnFirst,
      if_neg (fun hc => h (by rw [← hc]; exact List.mem_cons_self c rest)),
      ih (fun hm => h (List.mem_cons_of_mem c hm))]
    rfl

/-- Characters allowed in a URL scheme (`urllib.parse.scheme_chars`). -/
def isSchemeCharCL (c : Char) : Bool :=
  c.isAlpha || c.isDigit || c == '+' || c == '-' || c == '.'

/-- The scheme-extraction step of `urllib.parse.urlsplit`: split off
`scheme:` when the part before the first colon is a non-empty valid scheme
beginning with a letter, lowercasing it. -/
def splitScheme (url : CL) : CL × CL :=
  match splitOnFirst ':' url with
  | none => ([], url)
  | some (pre, post) =>
    if pre ≠ [] ∧ pre.all isSchemeCharCL = true ∧
        (pre.head?.map Char.isAlpha).getD false = true then
      (pre.map Char.toLower, post)
    else ([], url)

/-- Delimiters ending the netloc in `urllib.parse.urlsplit`. -/
def netlocDelim (c : Char) : Bool := c == '/' || c == '?' || c == '#'

/-- The netloc-extraction step of `urllib.parse.urlsplit`: after `//`, the
netloc extends to the first of `/`, `?`, `#`. -/
def splitNetlocPy (url : CL) : CL × CL :=
  match url with
  | '/' :: '/' :: rest =>
    (rest.takeWhile (fun c => !netlocDelim c),
     rest.dropWhile (fun c => !netlocDelim c))
  | _ => ([], url)

/-- Fragment split of `urllib.parse.urlsplit`: `url.split('#', 1)`. -/
def splitFragment (url : CL) : CL × CL :=
  match splitOnFirst '#' url with
  | none => (url, [])
  | some (a, b) => (a, b)

/-- Query split of `urllib.parse.urlsplit`: `url.split('?', 1)`. -/
def splitQuery (url : CL) : CL × CL :=
  match splitOnFirst '?' url with
  | none => (url, [])
  | some (a, b) => (a, b)

/-- The five parts of a split URL (scheme, netloc, path, query, fragment). -/
structure CLParts where
  scheme : CL
  netloc : CL
  path : CL
  query : CL
  fragment : CL

/-- Embedding of `urllib.parse.urlsplit` (without the IPv6-bracket check,
which the inputs considered here never trigger). -/
def urlsplitCL (url : CL) : CLParts :=
  let sr := splitScheme url
  let nr := splitNetlocPy sr.2
  let fr := splitFragment nr.2
  let qr := splitQuery fr.1
  ⟨sr.1, nr.1, qr.1, qr.2, fr.2⟩

/-- Modelled from the spec: `urlutil.urlunsplit` (linkcheck/url.py, not
under src/), the standard five-part URL recomposition, on characters. -/
def urlunsplitCL (p : CLParts) : CL :=
  let url := p.path
  let url :=
    if p.netloc ≠ [] ∨ (url ≠ [] ∧ url.take 2 = ['/', '/']) then
      ('/' :: '/' :: p.netloc) ++
        (if url ≠ [] ∧ url.take 1 ≠ ['/'] then '/' :: url else url)
    else url
  let url := if p.scheme ≠ [] then p.scheme ++ ':' :: url else url
  let url := if p.query ≠ [] then url ++ '?' :: p.query else url
  if p.fragment ≠ [] then url ++ '#' :: p.fragment else url

/-- Dot-segment removal worker over the slash-separated segments, with an
accumulator of already-kept segments (in reverse). -/
def removeDotSegs (acc : List CL) : List CL → List CL
  | [] => acc.reverse
  | seg :: rest =>
    if seg = ['.'] then removeDotSegs acc rest
    else if seg = ['.', '.'] then removeDotSegs (acc.drop 1) rest
    else removeDotSegs (seg :: acc) rest

/-- Modelled from the spec: `urlutil.collapse_segments` (linkcheck/url.py,
not under src/) re-collapses path dot-segments: the slash-separated
segments are rewritten with `.` dropped and `..` consuming the previous
segment. -/
def collapse_segments (p : CL) : CL :=
  List.intercalate ['/'] (removeDotSegs [] (p.splitOn '/'))

theorem removeDotSegs_of_no_dots (segs : List CL)
    (h : ∀ seg ∈ segs, seg ≠ ['.'] ∧ seg ≠ ['.', '.']) :
    ∀ acc, removeDotSegs acc segs = acc.reverse ++ segs := by
  induction segs with
  | nil => intro acc; simp [removeDotSegs]
  | cons seg rest ih =>
    intro acc
    have hseg := h seg (List.mem_cons_self seg rest)
    rw [removeDotSegs, if_neg hseg.1, if_neg hseg.2,
      ih (fun s hs => h s (List.mem_cons_of_mem seg hs)) (seg :: acc)]
    simp

theorem collapse_segments_fixed (p : CL)
    (h : ∀ seg ∈ p.splitOn '/', seg ≠ ['.'] ∧ seg ≠ ['.', '.']) :
    collapse_segments p = p := by
  rw [collapse_segments, removeDotSegs_of_no_dots (p.splitOn '/') h []]
  simpa using List.intercalate_splitOn p '/'

/-- Membership travels along a verified boolean list-prefix test. -/
theorem mem_of_isPrefixOf {x : Char} :
    ∀ {p l : CL}, p.isPrefixOf l = true → x ∈ p → x ∈ l := by
  intro p
  induction p with
  | nil => intro l _ hx; cases hx
  | cons a as ih =>
    intro l hpre hx
    cases l with
    | nil => cases hpre
    | cons b bs =>
      rw [List.isPrefixOf_cons₂] at hpre
      have := Bool.and_eq_true _ _ ▸ hpre
      rcases List.mem_cons.mp hx with hx1 | hx1
      · exact List.mem_cons.mpr (Or.inl (hx1.trans (by simpa using this.1)))
      · exact List.mem_cons.mpr (Or.inr (ih this.2 hx1))

/-- Modelled from the spec: `url_fix_wayback_query` (linkcheck/url.py, not
under src/) applies the web-archive path fixup, restoring the second slash
of `http://` / `https://` occurrences inside the path. -/
def url_fix_wayback (l : CL) : CL :=
  match l with
  | [] => []
  | c :: rest =>
    if "http://".toList.isPrefixOf (c :: rest) = true then
      "http://".toList ++ url_fix_wayback ((c :: rest).drop 7)
    else if "https://".toList.isPrefixOf (c :: rest) = true then
      "https://".toList ++ url_fix_wayback ((c :: rest).drop 8)
    else if "http:/".toList.isPrefixOf (c :: rest) = true then
      "http://".toList ++ url_fix_wayback ((c :: rest).drop 6)
    else if "https:/".toList.isPrefixOf (c :: rest) = true then
      "https://".toList ++ url_fix_wayback ((c :: rest).drop 7)
    else c :: url_fix_wayback rest
  termination_by l.length
  decreasing_by
    all_goals simp [List.length_drop]
    all_goals omega

theorem url_fix_wayback_fixed : ∀ l : CL, ':' ∉ l → url_fix_wayback l = l := by
  intro l
  induction l with
  | nil => intro _; rw [url_fix_wayback]
  | cons c rest ih =>
    intro h
    have h1 : ¬("http://".toList.isPrefixOf (c :: rest) = true) :=
      fun hp => h (mem_of_isPrefixOf hp (by decide))
    have h2 : ¬("https://".toList.isPrefixOf (c :: rest) = true) :=
      fun hp => h (mem_of_isPrefixOf hp (by decide))
    have h3 : ¬("http:/".toList.isPrefixOf (c :: rest) = true) :=
      fun hp => h (mem_of_isPrefixOf hp (by decide))
    have h4 : ¬("https:/".toList.isPrefixOf (c :: rest) = true) :=
      fun hp => h (mem_of_isPrefixOf hp (by decide))
    rw [url_fix_wayback, if_neg h1, if_neg h2, if_neg h3, if_neg h4,
      ih (fun hm => h (List.mem_cons_of_mem c hm))]

/-- The part of a netloc after its last `@`
(CPython `netloc.rpartition('@')[2]`). -/
def afterLastAt (netloc : CL) : CL :=
  (netloc.reverse.takeWhile (fun c => c != '@')).reverse

/-- CPython `SplitResult.hostname`: the part of the host info before the
first colon, lowercased. -/
def hostnameOf (netloc : CL) : CL :=
  let hostinfo := afterLastAt netloc
  (match splitOnFirst ':' hostinfo with
   | some p => p.1
   | none => hostinfo).map Char.toLower

/-- CPython `SplitResult.port` helper: the non-empty port text after the
colon, if any. -/
def portTextOf (netloc : CL) : Option CL :=
  match splitOnFirst ':' (afterLastAt netloc) with
  | none => none
  | some p => if p.2 = [] then none else some p.2

/-- Decimal parse of the port text; `none` embeds `ValueError`. -/
def parseDigits (l : CL) : Option Nat :=
  l.foldl
    (fun acc c =>
      match acc with
      | none => none
      | some n => if c.isDigit then some (n * 10 + (c.toNat - 48)) else none)
    (some 0)

/-- CPython `SplitResult.port`: `some none` = no port given, `some (some n)`
= explicit valid port, `none` = `ValueError` (which `build_url_parts` turns
into a `LinkCheckerError`). -/
def portOf (netloc : CL) : Option (Option Nat) :=
  match portTextOf netloc with
  | none => some none
  | some p =>
    match parseDigits p with
    | none => none
    | some n => if n ≤ 65535 then some (some n) else none

/-- Modelled from the spec: `urlutil.split_netloc` (linkcheck/url.py, not
under src/) decomposes the authority into user info and host part. -/
def split_netloc (netloc : CL) : CL × CL :=
  match splitOnFirst '@' netloc with
  | none => ([], netloc)
  | some p => p

/-- Modelled from the spec: `urlutil.default_ports` (linkcheck/url.py, not
under src/), the scheme-default port table. -/
def default_ports : List (CL × Nat) :=
  [("http".toList, 80), ("https".toList, 443), ("ftp".toList, 21),
   ("telnet".toList, 23), ("nntp".toList, 119), ("gopher".toList, 70)]

/-- `scheme_requires_host` from urlbase.py line 59. -/
def scheme_requires_host : List CL := ["ftp".toList, "http".toList]

/-- The obfuscated-IP collaborator (`iputil`, outside src/): the detection
predicate and the resolver used by `UrlBase.check_obfuscated_ip`. -/
structure ObfOracle where
  is_obfuscated_ip : CL → Bool
  resolve_host : CL → List CL

/-- Embedding of `UrlBase.build_url_parts` (with `check_obfuscated_ip`
inlined): `none` embeds a raised `LinkCheckerError` (invalid port or empty
hostname). -/
def build_url_parts (obf : ObfOracle) (scheme : CL) (url : CL) :
    Option CLParts :=
  let split := urlsplitCL url
  let userinfo := (split_netloc split.netloc).1
  match portOf split.netloc with
  | none => none
  | some portOpt =>
    let port :=
      match portOpt with
      | some p => p
      | none => (default_ports.lookup scheme).getD 0
    let host0 := hostnameOf split.netloc
    if scheme ∈ scheme_requires_host ∧ host0 = [] then none
    else
      let host1 :=
        if scheme ∈ scheme_requires_host ∧ obf.is_obfuscated_ip host0 = true ∧
            obf.resolve_host host0 ≠ [] then
          (obf.resolve_host host0).headI
        else host0
      let hostport :=
        if port = 0 ∨ some port = default_ports.lookup scheme then host1
        else host1 ++ ':' :: Nat.toDigits 10 port
      let netloc1 :=
        if userinfo ≠ [] then userinfo ++ '@' :: hostport else hostport
      some { split with netloc := netloc1 }

/-- The scheme stored by `UrlBase.init`:
`url.split(":", 1)[0].lower() or "file"`. -/
def scheme_of (u : CL) : CL :=
  let pre :=
    match splitOnFirst ':' u with
    | some p => p.1
    | none => u
  let lowered := pre.map Char.toLower
  if lowered = [] then "file".toList else lowered

/-- Embedding of `UrlBase.build_url` for a record with no base reference
and no parent URL (the other branches join against base/parent and are not
exercised here): returns the final `self.url` and `self.urlparts`, or
`none` for a raised syntax fault.  `norm` is the external
`url_norm`/`urlutil.url_norm` percent-encoding and IDN normalization
(linkcheck/url.py, not under src/). -/
def build_url (norm : CL → CL) (obf : ObfOracle) (base_url : CL) :
    Option (CL × CLParts) :=
  let base := norm base_url
  let sp0 := urlsplitCL base
  let sp1 :=
    if sp0.path ≠ [] then
      let p1 := collapse_segments sp0.path
      let p2 :=
        if "feed".toList.isPrefixOf sp0.scheme then p1 else url_fix_wayback p1
      { sp0 with path := p2 }
    else sp0
  let url1 := urlunsplitCL sp1
  match build_url_parts obf (scheme_of base_url) url1 with
  | none => none
  | some parts => some (urlunsplitCL parts, parts)

/-- The "Effective URL" test of `UrlBase.check_url_warnings`: the warning
fires iff `urlutil.urlunsplit(self.urlparts)` differs from `self.url`. -/
def effective_url_warning (url : CL) (parts : CLParts) : Bool :=
  urlunsplitCL parts != url

/-- Optional `?query` tail of a URL in normal form. -/
def optQuery (q : CL) : CL := if q = [] then [] else '?' :: q

/-- Optional `#fragment` tail of a URL in normal form. -/
def optFragment (f : CL) : CL := if f = [] then [] else '#' :: f

/-- An absolute URL in normal form, assembled from scheme, host, path,
query and fragment. -/
def mkNormUrl (s hst path q f : CL) : CL :=
  s ++ ':' :: '/' :: '/' :: (hst ++ path ++ optQuery q ++ optFragment f)

theorem map_id_of_mem {g : Char → Char} :
    ∀ l : CL, (∀ c ∈ l, g c = c) → l.map g = l := by
  intro l hl
  induction l with
  | nil => rfl
  | cons c rest ih =>
    rw [List.map_cons, hl c (List.mem_cons_self c rest),
      ih (fun x hx => hl x (List.mem_cons_of_mem c hx))]

theorem takeWhile_all {p : Char → Bool} :
    ∀ l : CL, (∀ c ∈ l, p c = true) → l.takeWhile p = l := by
  intro l hl
  induction l with
  | nil => rfl
  | cons c rest ih =>
    rw [List.takeWhile_cons_of_pos (hl c (List.mem_cons_self c rest)),
      ih (fun x hx => hl x (List.mem_cons_of_mem c hx))]

theorem takeWhile_append_all {p : Char → Bool} (a b : CL)
    (ha : ∀ c ∈ a, p c = true) :
    (a ++ b).takeWhile p = a ++ b.takeWhile p := by
  induction a with
  | nil => rfl
  | cons c rest ih =>
    rw [List.cons_append,
      List.takeWhile_cons_of_pos (ha c (List.mem_cons_self c rest)),
      ih (fun x hx => ha x (List.mem_cons_of_mem c hx))]
    rfl

theorem dropWhile_append_all {p : Char → Bool} (a b : CL)
    (ha : ∀ c ∈ a, p c = true) :
    (a ++ b).dropWhile p = b.dropWhile p := by
  induction a with
  | nil => rfl
  | cons c rest ih =>
    rw [List.cons_append,
      List.dropWhile_cons_of_pos (ha c (List.mem_cons_self c rest)),
      ih (fun x hx => ha x (List.mem_cons_of_mem c hx))]

theorem splitScheme_append (s rest : CL) (hs1 : s ≠ [])
    (hs2 : ∀ c ∈ s, c.isAlpha = true ∧ c.toLower = c ∧ c ≠ ':') :
    splitScheme (s ++ ':' :: rest) = (s, rest) := by
  have hmem : ':' ∉ s := fun hm => (hs2 ':' hm).2.2 rfl
  have hall : s.all isSchemeCharCL = true :=
    List.all_eq_true.mpr fun c hc => by
      simp [isSchemeCharCL, (hs2 c hc).1]
  obtain ⟨c0, s0, rfl⟩ := List.exists_cons_of_ne_nil hs1
  have hhead : (((c0 :: s0).head?.map Char.isAlpha).getD false) = true := by
    simp [(hs2 c0 (List.mem_cons_self c0 s0)).1]
  simp only [splitScheme, splitOnFirst_append ':' (c0 :: s0) rest hmem]
  rw [if_pos ⟨hs1, hall, hhead⟩,
    map_id_of_mem (c0 :: s0) (fun c hc => (hs2 c hc).2.1)]

theorem netlocDelim_false {c : Char} (h1 : c ≠ '/') (h2 : c ≠ '?')
    (h3 : c ≠ '#') : netlocDelim c = false := by
  rw [netlocDelim, beq_eq_false_iff_ne.mpr h1, beq_eq_false_iff_ne.mpr h2,
    beq_eq_false_iff_ne.mpr h3]
  rfl

theorem splitNetlocPy_mkNorm_rest (hst path q f : CL)
    (hh : ∀ c ∈ hst, netlocDelim c = false) (hp1 : path.head? = some '/') :
    splitNetlocPy ('/' :: '/' :: (hst ++ path ++ optQuery q ++ optFragment f)) =
      (hst, path ++ optQuery q ++ optFragment f) := by
  obtain ⟨p', rfl⟩ : ∃ p', path = '/' :: p' := by
    cases path with
    | nil => cases hp1
    | cons c r => exact ⟨r, by rw [Option.some.inj hp1]⟩
  have hall : ∀ c ∈ hst, (!netlocDelim c) = true := fun c hc => by
    rw [hh c hc]; rfl
  simp only [splitNetlocPy, List.cons_append, List.append_assoc]
  rw [takeWhile_append_all _ _ hall, dropWhile_append_all _ _ hall,
    List.takeWhile_cons_of_neg (by decide), List.dropWhile_cons_of_neg (by decide),
    List.append_nil]

theorem splitFragment_append (a f : CL) (ha : '#' ∉ a) :
    splitFragment (a ++ optFragment f) = (a, f) := by
  by_cases hf : f = []
  · subst hf
    rw [show optFragment [] = [] from rfl, List.append_nil, splitFragment,
      splitOnFirst_of_not_mem '#' a ha]
  · rw [show optFragment f = '#' :: f from by rw [optFragment, if_neg hf],
      splitFragment, splitOnFirst_append '#' a f ha]

theorem splitQuery_append (a q : CL) (ha : '?' ∉ a) :
    splitQuery (a ++ optQuery q) = (a, q) := by
  by_cases hq : q = []
  · subst hq
    rw [show optQuery [] = [] from rfl, List.append_nil, splitQuery,
      splitOnFirst_of_not_mem '?' a ha]
  · rw [show optQuery q = '?' :: q from by rw [optQuery, if_neg hq],
      splitQuery, splitOnFirst_append '?' a q ha]

theorem urlsplitCL_mkNorm (s hst path q f : CL)
    (hs1 : s ≠ [])
    (hs2 : ∀ c ∈ s, c.isAlpha = true ∧ c.toLower = c ∧ c ≠ ':')
    (hh2 : ∀ c ∈ hst, c ≠ '/' ∧ c ≠ '?' ∧ c ≠ '#')
    (hp1 : path.head? = some '/')
    (hp2 : ∀ c ∈ path, c ≠ '?' ∧ c ≠ '#')
    (hq : ∀ c ∈ q, c ≠ '#') :
    urlsplitCL (mkNormUrl s hst path q f) = ⟨s, hst, path, q, f⟩ := by
  have hnd : ∀ c ∈ hst, netlocDelim c = false := fun c hc =>
    netlocDelim_false (hh2 c hc).1 (hh2 c hc).2.1 (hh2 c hc).2.2
  have hnoHash : '#' ∉ path ++ optQuery q := by
    intro hm
    rcases List.mem_append.mp hm with hm | hm
    · exact (hp2 '#' hm).2 rfl
    · by_cases hqe : q = []
      · rw [show optQuery q = [] from by rw [optQuery, if_pos hqe]] at hm
        cases hm
      · rw [show optQuery q = '?' :: q from by rw [optQuery, if_neg hqe]] at hm
        rcases List.mem_cons.mp hm with he | hm
        · exact absurd he (by decide)
        · exact hq '#' hm rfl
  have hnoQm : '?' ∉ path := fun hm => (hp2 '?' hm).1 rfl
  have e1 : splitScheme (mkNormUrl s hst path q f) =
      (s, '/' :: '/' :: (hst ++ path ++ optQuery q ++ optFragment f)) := by
    rw [mkNormUrl]
    exact splitScheme_append s _ hs1 hs2
  have e2 : splitNetlocPy
      ('/' :: '/' :: (hst ++ path ++ optQuery q ++ optFragment f)) =
      (hst, path ++ optQuery q ++ optFragment f) :=
    splitNetlocPy_mkNorm_rest hst path q f hnd hp1
  have e3 : splitFragment (path ++ optQuery q ++ optFragment f) =
      (path ++ optQuery q, f) := splitFragment_append _ f hnoHash
  have e4 : splitQuery (path ++ optQuery q) = (path, q) :=
    splitQuery_append path q hnoQm
  simp only [urlsplitCL, e1, e2, e3, e4]

theorem urlunsplitCL_mkNorm (s hst path q f : CL) (hs1 : s ≠ [])
    (hh1 : hst ≠ []) (hp1 : path.head? = some '/') :
    urlunsplitCL ⟨s, hst, path, q, f⟩ = mkNormUrl s hst path q f := by
  obtain ⟨p', rfl⟩ : ∃ p', path = '/' :: p' := by
    cases path with
    | nil => cases hp1
    | cons c r => exact ⟨r, by rw [Option.some.inj hp1]⟩
  simp only [urlunsplitCL]
  rw [if_pos (Or.inl hh1),
    if_neg (show ¬(('/' :: p' : CL) ≠ [] ∧ ('/' :: p' : CL).take 1 ≠ ['/']) from
      fun hcond => hcond.2 (by simp)),
    if_pos hs1]
  by_cases hqe : q = [] <;> by_cases hfe : f = [] <;>
    simp [mkNormUrl, optQuery, optFragment, hqe, hfe, List.cons_append,
      List.append_assoc]

theorem afterLastAt_no_at (l : CL) (hat : '@' ∉ l) : afterLastAt l = l := by
  rw [afterLastAt,
    takeWhile_all l.reverse (fun c hc => by
      have hne : c ≠ '@' := fun he => hat (by rw [← he]; exact List.mem_reverse.mp hc)
      exact bne_iff_ne.mpr hne),
    List.reverse_reverse]

theorem hostnameOf_clean (hst : CL) (hcl : ∀ c ∈ hst, c.toLower = c)
    (hcolon : ':' ∉ hst) (hat : '@' ∉ hst) : hostnameOf hst = hst := by
  rw [hostnameOf, afterLastAt_no_at hst hat,
    splitOnFirst_of_not_mem ':' hst hcolon]
  exact map_id_of_mem hst hcl

theorem portOf_no_colon (hst : CL) (hcolon : ':' ∉ hst) (hat : '@' ∉ hst) :
    portOf hst = some none := by
  have htext : portTextOf hst = none := by
    rw [portTextOf, afterLastAt_no_at hst hat,
      splitOnFirst_of_not_mem ':' hst hcolon]
  rw [portOf, htext]

theorem split_netloc_no_at (hst : CL) (hat : '@' ∉ hst) :
    split_netloc hst = ([], hst) := by
  rw [split_netloc, splitOnFirst_of_not_mem '@' hst hat]

theorem build_url_parts_mkNorm (obf : ObfOracle) (s hst path q f : CL)
    (hsplit : urlsplitCL (mkNormUrl s hst path q f) = ⟨s, hst, path, q, f⟩)
    (hh1 : hst ≠ []) (hcl : ∀ c ∈ hst, c.toLower = c) (hcolon : ':' ∉ hst)
    (hat : '@' ∉ hst) (hobf : obf.is_obfuscated_ip hst = false) :
    build_url_parts obf s (mkNormUrl s hst path q f) =
      some ⟨s, hst, path, q, f⟩ := by
  have hport := portOf_no_colon hst hcolon hat
  have hhost := hostnameOf_clean hst hcl hcolon hat
  have hsn := split_netloc_no_at hst hat
  simp only [build_url_parts, hsplit, hport, hsn, hhost]
  rw [if_neg (show ¬(s ∈ scheme_requires_host ∧ hst = []) from
      fun hc => hh1 hc.2),
    if_neg (show ¬(s ∈ scheme_requires_host ∧ obf.is_obfuscated_ip hst = true ∧
        obf.resolve_host hst ≠ []) from
      fun hc => by rw [hobf] at hc; exact Bool.false_ne_true hc.2.1),
    if_neg (show ¬(([] : CL) ≠ []) from fun hc => hc rfl)]
  cases hl : default_ports.lookup s with
  | none => simp [hl]
  | some d => simp [hl]

theorem scheme_of_mkNorm (s hst path q f : CL) (hs1 : s ≠ [])
    (hs2 : ∀ c ∈ s, c.isAlpha = true ∧ c.toLower = c ∧ c ≠ ':') :
    scheme_of (mkNormUrl s hst path q f) = s := by
  have hmem : ':' ∉ s := fun hm => (hs2 ':' hm).2.2 rfl
  have hsp : splitOnFirst ':' (mkNormUrl s hst path q f) =
      some (s, '/' :: '/' :: (hst ++ path ++ optQuery q ++ optFragment f)) := by
    rw [mkNormUrl]
    exact splitOnFirst_append ':' s _ hmem
  simp only [scheme_of, hsp]
  rw [map_id_of_mem s (fun c hc => (hs2 c hc).2.1), if_neg hs1]

/-- Claim C7: normalization is idempotent.  For every URL in normal form
(lower-case scheme and host, a path beginning with `/` holding no `.` or
`..` segments and no `:`/`?`/`#`, no explicit port or user info, a
fragment-free query) that is moreover a fixed point of the external
percent-encoding/IDN normalization `norm` and not an obfuscated IP host,
building the record with no base reference and no parent URL succeeds and
leaves the URL unchanged — the serialized result equals the input — and no
"effective URL" warning is emitted. -/
theorem c7_build_url_idempotent
    (norm : CL → CL) (obf : ObfOracle) (s hst path q f : CL)
    (hs1 : s ≠ [])
    (hs2 : ∀ c ∈ s, c.isAlpha = true ∧ c.toLower = c ∧ c ≠ ':')
    (hh1 : hst ≠ [])
    (hh2 : ∀ c ∈ hst,
      c.toLower = c ∧ c ≠ '/' ∧ c ≠ '?' ∧ c ≠ '#' ∧ c ≠ ':' ∧ c ≠ '@')
    (hp1 : path.head? = some '/')
    (hp2 : ∀ c ∈ path, c ≠ '?' ∧ c ≠ '#' ∧ c ≠ ':')
    (hp3 : ∀ seg ∈ path.splitOn '/', seg ≠ ['.'] ∧ seg ≠ ['.', '.'])
    (hq : ∀ c ∈ q, c ≠ '#')
    (hobf : obf.is_obfuscated_ip hst = false)
    (hnorm : norm (mkNormUrl s hst path q f) = mkNormUrl s hst path q f) :
    build_url norm obf (mkNormUrl s hst path q f) =
      some (mkNormUrl s hst path q f, ⟨s, hst, path, q, f⟩) ∧
    effective_url_warning (mkNormUrl s hst path q f) ⟨s, hst, path, q, f⟩ =
      false := by
  have hsplit := urlsplitCL_mkNorm s hst path q f hs1 hs2
    (fun c hc => ⟨(hh2 c hc).2.1, (hh2 c hc).2.2.1, (hh2 c hc).2.2.2.1⟩)
    hp1 (fun c hc => ⟨(hp2 c hc).1, (hp2 c hc).2.1⟩) hq
  have hunsplit := urlunsplitCL_mkNorm s hst path q f hs1 hh1 hp1
  have hparts := build_url_parts_mkNorm obf s hst path q f hsplit hh1
    (fun c hc => (hh2 c hc).1) (fun hm => (hh2 ':' hm).2.2.2.2.1 rfl)
    (fun hm => (hh2 '@' hm).2.2.2.2.2 rfl) hobf
  have hscheme := scheme_of_mkNorm s hst path q f hs1 hs2
  have hpne : path ≠ [] := by
    cases path with
    | nil => cases hp1
    | cons c r => exact List.cons_ne_nil c r
  have hcoll := collapse_segments_fixed path hp3
  have hway := url_fix_wayback_fixed path (fun hm => (hp2 ':' hm).2.2 rfl)
  have hfix :
      (if "feed".toList.isPrefixOf s then collapse_segments path
       else url_fix_wayback (collapse_segments path)) = path := by
    rw [hcoll, hway]
    exact ite_self path
  constructor
  · simp only [build_url, hnorm, hsplit, if_pos hpne, hfix, hscheme, hparts,
      hunsplit]
  · rw [effective_url_warning, hunsplit]
    exact bne_self_eq_false _

theorem c7_build_url_idempotent_witness :
    (mkNormUrl "http".toList "example.com".toList "/b".toList [] [] =
      "http://example.com/b".toList) ∧
    build_url (fun u => u) ⟨fun _ => false, fun _ => []⟩
        (mkNormUrl "http".toList "example.com".toList "/b".toList [] []) =
      some (mkNormUrl "http".toList "example.com".toList "/b".toList [] [],
        ⟨"http".toList, "example.com".toList, "/b".toList, [], []⟩) ∧
    effective_url_warning
        (mkNormUrl "http".toList "example.com".toList "/b".toList [] [])
        ⟨"http".toList, "example.com".toList, "/b".toList, [], []⟩ = false := by
  refine ⟨by decide, ?_⟩
  exact c7_build_url_idempotent (fun u => u) ⟨fun _ => false, fun _ => []⟩
    "http".toList "example.com".toList "/b".toList [] []
    (by decide) (by decide) (by decide) (by decide) (by decide) (by decide)
    (by decide) (by decide) rfl rfl

end UrlBase
